import Mathlib

/-!
Verification of the ray-tracing renderer core against its design spec.

The `f64` scalars of the source are modelled as elements of an arbitrary
linear ordered field (instantiated at `ℝ` or `ℚ` in the theorems), and
`f64::sqrt` is passed explicitly as a function argument (instantiated at
`Real.sqrt`), so every definition stays computable at computable scalars.
Randomness (`rand::random()` draws) is modelled by passing each draw as an
explicit argument, as section 9 of the spec itself suggests.
-/

namespace RayTracing

/-- The 3-component vector of `src/src/geometry/vector.rs` (`Vector`, with the
alias `Point`); each `f64` component is modelled as a scalar of a linear
ordered field `K`. -/
structure Vec (K : Type) where
  x : K
  y : K
  z : K
deriving DecidableEq

variable {K : Type} [LinearOrderedField K]

namespace Vec

/-- `Vector::new`. -/
def new (x y z : K) : Vec K := ⟨x, y, z⟩

/-- `Vector::zero`. -/
def zero : Vec K := ⟨0, 0, 0⟩

/-- `Vector::dot`. -/
def dot (v w : Vec K) : K := v.x * w.x + v.y * w.y + v.z * w.z

/-- `Vector::l2_norm_squared`: `self.dot(self)`. -/
def l2_norm_squared (v : Vec K) : K := v.dot v

/-- `Vector::l2_norm`: `self.l2_norm_squared().sqrt()`; the `f64::sqrt`
primitive is the explicit argument. -/
def l2_norm (sqrt : K → K) (v : Vec K) : K := sqrt v.l2_norm_squared

/-- `impl Add for Vector`: componentwise addition. -/
instance : Add (Vec K) := ⟨fun v w => ⟨v.x + w.x, v.y + w.y, v.z + w.z⟩⟩

/-- `impl Mul for Vector`: componentwise (Hadamard) product. -/
instance : Mul (Vec K) := ⟨fun v w => ⟨v.x * w.x, v.y * w.y, v.z * w.z⟩⟩

/-- `impl Mul<f64> for Vector`: each component times the scalar. -/
instance : SMul K (Vec K) := ⟨fun a v => ⟨v.x * a, v.y * a, v.z * a⟩⟩

/-- `impl Sub for Vector`: `self + rhs * -1.0`. -/
instance : Sub (Vec K) := ⟨fun v w => v + (-1 : K) • w⟩

/-- Componentwise negation (used to state the `-N` of the spec). -/
instance : Neg (Vec K) := ⟨fun v => ⟨-v.x, -v.y, -v.z⟩⟩

/-- `impl Div<f64> for Vector`: `self * (1.0 / rhs)`. -/
def div (v : Vec K) (a : K) : Vec K := (1 / a) • v

/-- `Vector::normalise`: `self / self.l2_norm()`. -/
def normalise (sqrt : K → K) (v : Vec K) : Vec K := v.div (v.l2_norm sqrt)

/-- `Vector::map`. -/
def map (f : K → K) (v : Vec K) : Vec K := ⟨f v.x, f v.y, f v.z⟩

/-- `impl Sum for Vector`: `iter.fold(Vector::zero(), |a, b| a + b)`. -/
def sumList (l : List (Vec K)) : Vec K := l.foldl (· + ·) zero

@[simp] lemma add_x (v w : Vec K) : (v + w).x = v.x + w.x := rfl
@[simp] lemma add_y (v w : Vec K) : (v + w).y = v.y + w.y := rfl
@[simp] lemma add_z (v w : Vec K) : (v + w).z = v.z + w.z := rfl
@[simp] lemma mul_x (v w : Vec K) : (v * w).x = v.x * w.x := rfl
@[simp] lemma mul_y (v w : Vec K) : (v * w).y = v.y * w.y := rfl
@[simp] lemma mul_z (v w : Vec K) : (v * w).z = v.z * w.z := rfl
@[simp] lemma smul_x (a : K) (v : Vec K) : (a • v).x = v.x * a := rfl
@[simp] lemma smul_y (a : K) (v : Vec K) : (a • v).y = v.y * a := rfl
@[simp] lemma smul_z (a : K) (v : Vec K) : (a • v).z = v.z * a := rfl
@[simp] lemma sub_x (v w : Vec K) : (v - w).x = v.x + w.x * (-1) := rfl
@[simp] lemma sub_y (v w : Vec K) : (v - w).y = v.y + w.y * (-1) := rfl
@[simp] lemma sub_z (v w : Vec K) : (v - w).z = v.z + w.z * (-1) := rfl
@[simp] lemma neg_x (v : Vec K) : (-v).x = -v.x := rfl
@[simp] lemma neg_y (v : Vec K) : (-v).y = -v.y := rfl
@[simp] lemma neg_z (v : Vec K) : (-v).z = -v.z := rfl
@[simp] lemma div_x (v : Vec K) (a : K) : (v.div a).x = v.x * (1 / a) := rfl
@[simp] lemma div_y (v : Vec K) (a : K) : (v.div a).y = v.y * (1 / a) := rfl
@[simp] lemma div_z (v : Vec K) (a : K) : (v.div a).z = v.z * (1 / a) := rfl

@[ext] lemma ext {α : Type} {v w : Vec α} (hx : v.x = w.x) (hy : v.y = w.y) (hz : v.z = w.z) :
    v = w := by
  cases v
  cases w
  simp_all

lemma dot_comm (v w : Vec K) : v.dot w = w.dot v := by
  simp [dot]
  ring

end Vec

/-- `Ray` of `src/src/geometry/mod.rs`: an origin `Point` plus a direction
`Vector`. -/
structure Ray (K : Type) where
  origin : Vec K
  direction : Vec K
deriving DecidableEq

/-- `Ray::from_two_points`. -/
def Ray.from_two_points (origin second_point : Vec K) : Ray K :=
  ⟨origin, second_point - origin⟩

/-- `Ray::at`: `origin + direction * t`. -/
def Ray.at (r : Ray K) (t : K) : Vec K := r.origin + t • r.direction

/-- Modelled from the spec: the final `Interval` type of the repository (the
one `camera.rs`, `surface/mod.rs` and `geometry/shape/sphere.rs` use through
`Interval::new(min, max, bounds)`) is not among the staged source files; spec
section 3 describes it as a `[min, max]` numeric range with one of four
boundary-inclusion conventions: open, closed, left-open-right-closed,
left-closed-right-open. -/
inductive IntervalBounds where
  | Open
  | Closed
  | LeftOpenRightClosed
  | LeftClosedRightOpen
deriving DecidableEq

/-- Modelled from the spec: a numeric range with a boundary-inclusion
convention at each end (spec section 3). -/
structure Interval (K : Type) where
  min : K
  max : K
  bounds : IntervalBounds
deriving DecidableEq

/-- Modelled from the spec: `Interval::new(min, max, bounds)`. -/
def Interval.new (min max : K) (bounds : IntervalBounds) : Interval K :=
  ⟨min, max, bounds⟩

/-- Modelled from the spec: `Interval::size`, `max - min` as in the earlier
snapshot `src/src/geometry/mod.rs`. -/
def Interval.size (i : Interval K) : K := i.max - i.min

/-- Modelled from the spec: `Interval::empty`, the `[0.0, 0.0]` range of the
earlier snapshot `src/src/geometry/mod.rs` (only its `min` and `size` are
ever read, by `Camera::build_ray`). -/
def Interval.empty : Interval K := ⟨0, 0, IntervalBounds.Open⟩

/-- Modelled from the spec: membership under the boundary-inclusion
convention of the interval ("the interval's own boundary rule", spec
section 4.2). -/
def Interval.contains (i : Interval K) (t : K) : Bool :=
  match i.bounds with
  | IntervalBounds.Open => decide (i.min < t ∧ t < i.max)
  | IntervalBounds.Closed => decide (i.min ≤ t ∧ t ≤ i.max)
  | IntervalBounds.LeftOpenRightClosed => decide (i.min < t ∧ t ≤ i.max)
  | IntervalBounds.LeftClosedRightOpen => decide (i.min ≤ t ∧ t < i.max)

/-- `Sphere` of `src/src/geometry/shape/sphere.rs`. -/
structure Sphere (K : Type) where
  center : Vec K
  radius : K
deriving DecidableEq

/-- `Sphere::new`: `assert!(radius > 0.0)` and then construction; the panic
of a failed assertion is modelled as `none`. -/
def Sphere.new (center : Vec K) (radius : K) : Option (Sphere K) :=
  if 0 < radius then some ⟨center, radius⟩ else none

/-- `<Sphere as Shape>::intersection` of `src/src/geometry/shape/sphere.rs`. -/
def Sphere.intersection (sqrt : K → K) (sph : Sphere K) (ray : Ray K)
    (time_interval : Interval K) : Option K :=
  let oc := sph.center - ray.origin
  let a := ray.direction.l2_norm_squared
  let h := ray.direction.dot oc
  let c := oc.l2_norm_squared - sph.radius ^ 2
  let discriminant := h ^ 2 - a * c
  if discriminant < 0 then none
  else
    let discriminant_sqrt := sqrt discriminant
    ((([-1, 1] : List K).map (fun s => (h + s * discriminant_sqrt) / a)).filter
      (fun t => time_interval.contains t)).head?

/-- `<Sphere as Shape>::outwards_normal`: `(point - center) / radius`. -/
def Sphere.outwards_normal (sph : Sphere K) (point : Vec K) : Vec K :=
  (point - sph.center).div sph.radius

/-- `f64::signum` on the non-NaN reals: `-1` on the negatives, `1` otherwise
(`+0.0`, the model of the real zero, falls in the positive branch). -/
def signum (x : K) : K := if x < 0 then -1 else 1

/-- `Surface::normal_against_ray` of `src/src/geometry/surface/mod.rs`:
`- n.dot(ray.direction).signum() * n` where `n = outwards_normal(point)`. -/
def Surface.normal_against_ray (outwards_normal : Vec K → Vec K) (point : Vec K)
    (ray : Ray K) : Vec K :=
  (-(signum ((outwards_normal point).dot ray.direction))) • outwards_normal point

/-- `Shape::normal_against_ray` of `src/src/geometry/shape/mod.rs`: the same
sign flip wrapped in `UnitVector::from` (which normalises its argument). -/
def Shape.normal_against_ray (sqrt : K → K) (outwards_normal : Vec K → Vec K)
    (point : Vec K) (ray : Ray K) : Vec K :=
  Vec.normalise sqrt
    ((-(signum ((outwards_normal point).dot ray.direction))) • outwards_normal point)

/-- `Reflection` of `src/src/surface/mod.rs`: an attenuation colour and a
reflected direction. The trait declares the direction a `UnitVector`; it is
modelled as a plain vector whose unit-length invariant appears as a
hypothesis where a theorem needs it. -/
structure Reflection (K : Type) where
  attenuation : Vec K
  direction : Vec K
deriving DecidableEq

/-- `<Lambertian as Material>::random_reflection` of
`src/src/surface/lambertian.rs`: always `Some`, attenuation the fixed albedo,
direction `UnitVector::from(rebound_normal + UnitVector::random())`. The
random unit vector drawn inside the source is the explicit `random_unit`
argument; the `entering_surface` probe is received and never used, exactly as
in the source (`_entering_surface`). -/
def Lambertian.random_reflection (sqrt : K → K) (albedo : Vec K)
    (_ray_direction rebound_normal random_unit : Vec K)
    (_entering_surface : Unit → Bool) : Option (Reflection K) :=
  some { attenuation := albedo
         direction := (rebound_normal + random_unit).normalise sqrt }

/-- `<Metal as Material>::random_reflection` of `src/src/surface/metal.rs`:
always `Some`, attenuation the fixed albedo, direction
`UnitVector::from(ray_direction - 2.0 * rebound_normal * ray_direction.dot(rebound_normal))`.
The probe is received and never used (`_entering_surface`). -/
def Metal.random_reflection (sqrt : K → K) (albedo : Vec K)
    (ray_direction rebound_normal : Vec K)
    (_entering_surface : Unit → Bool) : Option (Reflection K) :=
  some { attenuation := albedo
         direction :=
           (ray_direction -
             (2 * (ray_direction.dot rebound_normal)) • rebound_normal).normalise sqrt }

/-- `<Dielectric as Material>::random_reflection` of
`src/src/surface/dielectric.rs`. The `entering_surface` closure is modelled
as a `Unit → Bool` probe, called exactly where the source calls it. -/
def Dielectric.random_reflection (sqrt : K → K) (refraction_index : K)
    (ray_direction rebound_normal : Vec K)
    (entering_surface : Unit → Bool) : Option (Reflection K) :=
  let relative_index :=
    if entering_surface () = true then refraction_index else 1 / refraction_index
  let r := ray_direction.normalise sqrt
  let refracted_perpendicular :=
    (1 / relative_index) • (r - (r.dot rebound_normal) • rebound_normal)
  let refracted_parallel :=
    ((-1 : K) * sqrt (1 - refracted_perpendicular.l2_norm_squared)) • rebound_normal
  some { attenuation := Vec.new 1 1 1
         direction := refracted_parallel + refracted_perpendicular }

/-- `SurfaceSetIntersection` of `src/src/surface/mod.rs`: the nearest time
and the member surfaces achieving exactly that time. The borrowed
`&Box<dyn Surface>` references become values of the surface model `S`. -/
structure SurfaceSetIntersection (S K : Type) where
  t : K
  surfaces : List S
deriving DecidableEq

/-- The `subsequent_bounds` match at the head of `SurfaceSet::intersection`:
the follow-up scan window is closed on its upper end (so an exact tie is
still detected) and keeps the lower-bound convention of the original. -/
def subsequentBounds : IntervalBounds → IntervalBounds
  | IntervalBounds.Open => IntervalBounds.LeftOpenRightClosed
  | IntervalBounds.Closed => IntervalBounds.Closed
  | IntervalBounds.LeftOpenRightClosed => IntervalBounds.LeftOpenRightClosed
  | IntervalBounds.LeftClosedRightOpen => IntervalBounds.Closed

/-- One iteration of the fold inside `SurfaceSet::intersection`. The Rust
fold accumulates the shrinking window and mutates `out` in place; here the
pair `(window, out)` is the explicit accumulator. A hit strictly below
`window.max` (or a first hit, `out == None`) replaces `out` with a
singleton; a hit at exactly `window.max` with `out` present is appended to
the tie set (`t == window.max && out.is_some()` in the source). -/
def scanStep {S : Type} (intersect : S → Ray K → Interval K → Option K)
    (ray : Ray K) (sb : IntervalBounds)
    (acc : Interval K × Option (SurfaceSetIntersection S K)) (s : S) :
    Interval K × Option (SurfaceSetIntersection S K) :=
  let window := acc.1
  match intersect s ray window with
  | none => acc
  | some t =>
    match acc.2 with
    | some o =>
      if t = window.max then
        (Interval.new window.min t sb, some { t := o.t, surfaces := o.surfaces ++ [s] })
      else
        (Interval.new window.min t sb, some { t := t, surfaces := [s] })
    | none => (Interval.new window.min t sb, some { t := t, surfaces := [s] })

/-- `SurfaceSet::intersection` of `src/src/surface/mod.rs` (lines 116-140),
generic over the model `S` of a boxed member surface and its `intersection`
method. -/
def SurfaceSet.intersection {S : Type} (intersect : S → Ray K → Interval K → Option K)
    (surfaces : List S) (ray : Ray K) (time_interval : Interval K) :
    Option (SurfaceSetIntersection S K) :=
  (surfaces.foldl (scanStep intersect ray (subsequentBounds time_interval.bounds))
    (time_interval, none)).2

/-- A member surface of a `SurfaceSet` abstracted by the times at which the
traced ray meets it: `intersection` returns the first (smallest) hit time
inside the window, which is what the `Surface` trait documents
("the first time (if any) at which ray intersects self in the
time_interval"). -/
def ListSurface.intersection (hits : List K) (_ray : Ray K) (window : Interval K) :
    Option K :=
  (hits.filter (fun u => window.contains u)).min?

/-- `ScatteredRay` of `src/src/surface/mod.rs`: an attenuated, reflected
ray. -/
structure ScatteredRay (K : Type) where
  attenuation : Vec K
  ray : Ray K

/-- A boxed `dyn Surface` as `camera.rs` consumes it: its `intersection` and
`scatter` methods. -/
structure CamSurface (K : Type) where
  intersection : Ray K → Interval K → Option K
  scatter : Vec K → Ray K → Option (ScatteredRay K)

/-- `ray_colour` of `src/src/camera.rs` (lines 114-132). `f64::MAX` is the
explicit `f64_max` argument; the `u8` bounce budget is a natural number.
`intersection.surfaces[0]` is modelled by matching on the head of the tie
list (the scan never produces an empty one; the out-of-bounds panic is
modelled as the zero colour). -/
def ray_colour (sqrt : K → K) (f64_max : K) (world : List (CamSurface K))
    (ray : Ray K) : ℕ → Vec K
  | 0 => Vec.zero
  | max_ray_bounces + 1 =>
    match SurfaceSet.intersection (fun s r w => s.intersection r w) world ray
        (Interval.new (1 / 1000) f64_max IntervalBounds.Open) with
    | none =>
      let a := ((ray.direction.normalise sqrt).y + 1) / 2
      (1 - a) • Vec.new 1 1 1 + a • Vec.new (1 / 2) (7 / 10) 1
    | some intersection =>
      let point := ray.at intersection.t
      match intersection.surfaces with
      | [] => Vec.zero
      | surface :: _ =>
        match surface.scatter point ray with
        | none => Vec.zero
        | some scattered_ray =>
          scattered_ray.attenuation *
            ray_colour sqrt f64_max world scattered_ray.ray max_ray_bounces

/-- `Camera` of `src/src/camera.rs`; the `u16` image dimensions and `u8`
sample counts are natural numbers. The viewport fields the source keeps but
never reads again (prefixed `_` there) are dropped. -/
structure Camera (K : Type) where
  image_width : ℕ
  image_height : ℕ
  antialiasing : ℕ
  eye_point : Vec K
  pixel_delta_u : Vec K
  pixel_delta_v : Vec K
  pixel00 : Vec K
  max_ray_bounces : ℕ

/-- `Camera::new` of `src/src/camera.rs` (lines 40-83). -/
def Camera.new (image_width image_height : ℕ)
    (viewport_width viewport_height focal_length : K)
    (antialiasing max_ray_bounces : ℕ) : Camera K :=
  let eye_point : Vec K := ⟨0, 0, 0⟩
  let viewport_u : Vec K := ⟨viewport_width, 0, 0⟩
  let viewport_v : Vec K := ⟨0, -viewport_height, 0⟩
  let pixel_delta_u := viewport_u.div (image_width : K)
  let pixel_delta_v := viewport_v.div (image_height : K)
  let viewport_upper_left :=
    eye_point - viewport_u.div 2 - viewport_v.div 2 - (⟨0, 0, focal_length⟩ : Vec K)
  let pixel00 := viewport_upper_left + (pixel_delta_u + pixel_delta_v).div 2
  { image_width := image_width
    image_height := image_height
    antialiasing := antialiasing
    eye_point := eye_point
    pixel_delta_u := pixel_delta_u
    pixel_delta_v := pixel_delta_v
    pixel00 := pixel00
    max_ray_bounces := max_ray_bounces }

/-- `Camera::build_ray` of `src/src/camera.rs` (lines 102-109): the two
`rand::random::<f64>()` draws are the explicit `rx`, `ry` arguments (each
uniform in `[0, 1)` in the source). -/
def Camera.build_ray (cam : Camera K) (x y : ℕ) (sample_space : Interval K)
    (rx ry : K) : Ray K :=
  let xc := (x : K) + sample_space.min + sample_space.size * rx
  let yc := (y : K) + sample_space.min + sample_space.size * ry
  Ray.from_two_points cam.eye_point
    (cam.pixel00 + xc • cam.pixel_delta_u + yc • cam.pixel_delta_v)

/-- The per-pixel `vector_generator` closure inside `Camera::render`
(`src/src/camera.rs`, lines 86-95): `antialiasing` jittered rays (one per
entry of `draws`, each entry the pair of random draws of one `build_ray`
call) chained with the one direct ray, each traced by `ray_colour`, summed
and divided by `antialiasing + 1`. -/
def Camera.vector_generator (sqrt : K → K) (f64_max : K) (cam : Camera K)
    (world : List (CamSurface K)) (x y : ℕ) (direct_rx direct_ry : K)
    (draws : List (K × K)) : Vec K :=
  let direct_ray := cam.build_ray x y Interval.empty direct_rx direct_ry
  let diffusion : Interval K :=
    Interval.new (-(1 / 2)) (1 / 2) IntervalBounds.Closed
  let vector_sum := Vec.sumList
    (((draws.map fun d => cam.build_ray x y diffusion d.1 d.2) ++ [direct_ray]).map
      fun ray => ray_colour sqrt f64_max world ray cam.max_ray_bounces)
  vector_sum.div ((cam.antialiasing : K) + 1)

section Lemmas

lemma Vec.one_smul_eq (v : Vec K) : (1 : K) • v = v := by
  ext <;> simp

lemma Vec.neg_one_smul_eq (v : Vec K) : (-1 : K) • v = -v := by
  ext <;> simp

lemma Vec.div_one_eq (v : Vec K) : v.div 1 = v := by
  ext <;> simp

lemma Vec.l2_norm_squared_neg (v : Vec K) : (-v).l2_norm_squared = v.l2_norm_squared := by
  simp [Vec.l2_norm_squared, Vec.dot]

/-- Normalising a vector of unit squared norm is the identity (over `ℝ`,
with the `sqrt` argument instantiated at `Real.sqrt`). -/
lemma Vec.normalise_of_l2ns_eq_one {v : Vec ℝ} (hv : v.l2_norm_squared = 1) :
    v.normalise Real.sqrt = v := by
  unfold Vec.normalise Vec.l2_norm
  rw [hv, Real.sqrt_one]
  exact v.div_one_eq

end Lemmas

/-- Claim C4: `ray_colour` with a bounce budget of 0 returns the zero colour
for every scene, every ray (and every `sqrt` model and `f64::MAX` value):
the budget check precedes the scene query. -/
theorem ray_colour_zero_budget (sqrt : K → K) (f64_max : K)
    (world : List (CamSurface K)) (ray : Ray K) :
    ray_colour sqrt f64_max world ray 0 = Vec.zero := rfl

/-- Claim C8: `Sphere::new` fails fast (the failed assertion is modelled as
`none`) on every radius ≤ 0, and for every radius > 0 constructs the sphere
with exactly the given center and radius. -/
theorem sphere_new_spec (center : Vec K) (radius : K) :
    (radius ≤ 0 → Sphere.new center radius = none) ∧
    (0 < radius → Sphere.new center radius = some ⟨center, radius⟩) := by
  constructor
  · intro hr
    simp [Sphere.new, not_lt.mpr hr]
  · intro hr
    simp [Sphere.new, hr]

/-- Witness for claim C8 at a concrete center and the radii -1 and 2. -/
theorem sphere_new_spec_witness :
    ((-1 : ℚ) ≤ 0 ∧ Sphere.new (Vec.new 0 0 0) (-1 : ℚ) = none) ∧
    ((0 : ℚ) < 2 ∧ Sphere.new (Vec.new 0 0 0) (2 : ℚ) = some ⟨Vec.new 0 0 0, 2⟩) :=
  ⟨⟨by norm_num, (sphere_new_spec (Vec.new 0 0 0) (-1)).1 (by norm_num)⟩,
   ⟨by norm_num, (sphere_new_spec (Vec.new 0 0 0) 2).2 (by norm_num)⟩⟩

/-- Claim C9: `Lambertian::random_reflection` and `Metal::random_reflection`
never consult the entering-surface probe and never absorb: with the same
random draw, any two probes produce equal results, and the result is always
`some`. -/
theorem lambertian_metal_probe_independent (sqrt : K → K)
    (albedoL albedoM ray_direction rebound_normal random_unit : Vec K)
    (p₁ p₂ : Unit → Bool) :
    Lambertian.random_reflection sqrt albedoL ray_direction rebound_normal random_unit p₁
      = Lambertian.random_reflection sqrt albedoL ray_direction rebound_normal random_unit p₂ ∧
    Metal.random_reflection sqrt albedoM ray_direction rebound_normal p₁
      = Metal.random_reflection sqrt albedoM ray_direction rebound_normal p₂ ∧
    (Lambertian.random_reflection sqrt albedoL ray_direction rebound_normal random_unit p₁).isSome
      = true ∧
    (Metal.random_reflection sqrt albedoM ray_direction rebound_normal p₁).isSome = true :=
  ⟨rfl, rfl, rfl, rfl⟩

/-- Claim C6: with `N` the (unit) outward normal at the point, a ray whose
direction has negative dot product with `N` keeps the normal
(`normal_against_ray` returns `N`), and one with positive dot product flips
it to `-N` — for both the `geometry/surface` version and the
`geometry/shape` version (the latter additionally wraps the flip in
`UnitVector::from`, a renormalisation). -/
theorem normal_against_ray_spec (outwards_normal : Vec ℝ → Vec ℝ) (point : Vec ℝ)
    (ray : Ray ℝ) (hn : (outwards_normal point).l2_norm_squared = 1) :
    (ray.direction.dot (outwards_normal point) < 0 →
      Surface.normal_against_ray outwards_normal point ray = outwards_normal point ∧
      Shape.normal_against_ray Real.sqrt outwards_normal point ray = outwards_normal point) ∧
    (0 < ray.direction.dot (outwards_normal point) →
      Surface.normal_against_ray outwards_normal point ray = -(outwards_normal point) ∧
      Shape.normal_against_ray Real.sqrt outwards_normal point ray = -(outwards_normal point)) := by
  constructor
  · intro hd
    have hs : signum ((outwards_normal point).dot ray.direction) = -1 := by
      rw [Vec.dot_comm] at hd
      simp [signum, hd]
    constructor
    · rw [Surface.normal_against_ray, hs, neg_neg, Vec.one_smul_eq]
    · rw [Shape.normal_against_ray, hs, neg_neg, Vec.one_smul_eq]
      exact Vec.normalise_of_l2ns_eq_one hn
  · intro hd
    have hs : signum ((outwards_normal point).dot ray.direction) = 1 := by
      rw [Vec.dot_comm] at hd
      simp [signum, not_lt.mpr hd.le]
    constructor
    · rw [Surface.normal_against_ray, hs, Vec.neg_one_smul_eq]
    · rw [Shape.normal_against_ray, hs, Vec.neg_one_smul_eq]
      exact Vec.normalise_of_l2ns_eq_one (by rw [Vec.l2_norm_squared_neg]; exact hn)

/-- Witness for claim C6 at the unit normal (1,0,0), with an incoming ray
direction (-1,0,0) (entering: dot -1) and an outgoing one (1,0,0)
(leaving: dot 1). -/
theorem normal_against_ray_spec_witness :
    ((Vec.new 1 0 0 : Vec ℝ).l2_norm_squared = 1 ∧
      (Vec.new (-1) 0 0 : Vec ℝ).dot (Vec.new 1 0 0) < 0 ∧
      Surface.normal_against_ray (fun _ => Vec.new 1 0 0) (Vec.new 1 0 0 : Vec ℝ)
        ⟨Vec.new 0 0 0, Vec.new (-1) 0 0⟩ = Vec.new 1 0 0) ∧
    ((0 : ℝ) < (Vec.new 1 0 0 : Vec ℝ).dot (Vec.new 1 0 0) ∧
      Surface.normal_against_ray (fun _ => Vec.new 1 0 0) (Vec.new 1 0 0 : Vec ℝ)
        ⟨Vec.new 0 0 0, Vec.new 1 0 0⟩ = -(Vec.new 1 0 0)) := by
  have hn : (Vec.new 1 0 0 : Vec ℝ).l2_norm_squared = 1 := by
    norm_num [Vec.l2_norm_squared, Vec.dot, Vec.new]
  refine ⟨⟨hn, ?_, ?_⟩, ?_, ?_⟩
  · norm_num [Vec.dot, Vec.new]
  · exact ((normal_against_ray_spec (fun _ => Vec.new 1 0 0) (Vec.new 1 0 0 : Vec ℝ)
      ⟨Vec.new 0 0 0, Vec.new (-1) 0 0⟩ hn).1 (by norm_num [Vec.dot, Vec.new])).1
  · norm_num [Vec.dot, Vec.new]
  · exact ((normal_against_ray_spec (fun _ => Vec.new 1 0 0) (Vec.new 1 0 0 : Vec ℝ)
      ⟨Vec.new 0 0 0, Vec.new 1 0 0⟩ hn).2 (by norm_num [Vec.dot, Vec.new])).1

/-- Claim C10: at exact grazing incidence — the ray direction perpendicular
to the outward normal, `D·N = +0.0` — `normal_against_ray` flips the normal
to `-N`, because `f64::signum` maps `+0.0` to `1.0`; this edge case is
outside the sign rule stated by the spec. Both versions of
`normal_against_ray` behave the same (the `geometry/shape` one under the
unit-normal invariant). -/
theorem normal_against_ray_grazing (outwards_normal : Vec ℝ → Vec ℝ) (point : Vec ℝ)
    (ray : Ray ℝ) (hn : (outwards_normal point).l2_norm_squared = 1)
    (h0 : ray.direction.dot (outwards_normal point) = 0) :
    Shape.normal_against_ray Real.sqrt outwards_normal point ray = -(outwards_normal point) ∧
    Surface.normal_against_ray outwards_normal point ray = -(outwards_normal point) := by
  have hs : signum ((outwards_normal point).dot ray.direction) = 1 := by
    rw [Vec.dot_comm] at h0
    simp [signum, h0]
  constructor
  · rw [Shape.normal_against_ray, hs, Vec.neg_one_smul_eq]
    exact Vec.normalise_of_l2ns_eq_one (by rw [Vec.l2_norm_squared_neg]; exact hn)
  · rw [Surface.normal_against_ray, hs, Vec.neg_one_smul_eq]

/-- Witness for claim C10 at the unit normal (0,0,1) and the perpendicular
ray direction (1,0,0). -/
theorem normal_against_ray_grazing_witness :
    (Vec.new 0 0 1 : Vec ℝ).l2_norm_squared = 1 ∧
    (Vec.new 1 0 0 : Vec ℝ).dot (Vec.new 0 0 1) = 0 ∧
    Shape.normal_against_ray Real.sqrt (fun _ => Vec.new 0 0 1) (Vec.new 0 0 1 : Vec ℝ)
      ⟨Vec.new 0 0 0, Vec.new 1 0 0⟩ = -(Vec.new 0 0 1) := by
  have hn : (Vec.new 0 0 1 : Vec ℝ).l2_norm_squared = 1 := by
    norm_num [Vec.l2_norm_squared, Vec.dot, Vec.new]
  refine ⟨hn, by norm_num [Vec.dot, Vec.new], ?_⟩
  exact (normal_against_ray_grazing (fun _ => Vec.new 0 0 1) (Vec.new 0 0 1 : Vec ℝ)
    ⟨Vec.new 0 0 0, Vec.new 1 0 0⟩ hn (by norm_num [Vec.dot, Vec.new])).1

section SphereIntersection

lemma Vec.l2_norm_squared_pos {v : Vec K} (hv : v ≠ Vec.zero) : 0 < v.l2_norm_squared := by
  rcases v with ⟨x, y, z⟩
  by_contra hle
  push_neg at hle
  simp only [Vec.l2_norm_squared, Vec.dot] at hle
  have hx := mul_self_nonneg x
  have hy := mul_self_nonneg y
  have hz := mul_self_nonneg z
  apply hv
  have hx2 : x * x = 0 := le_antisymm (by nlinarith) hx
  have hy2 : y * y = 0 := le_antisymm (by nlinarith) hy
  have hz2 : z * z = 0 := le_antisymm (by nlinarith) hz
  have : x = 0 := mul_self_eq_zero.mp hx2
  have : y = 0 := mul_self_eq_zero.mp hy2
  have : z = 0 := mul_self_eq_zero.mp hz2
  simp_all [Vec.zero]

lemma filter_two_head {α : Type} (p : α → Bool) (u v : α) :
    (List.filter p [u, v]).head? =
      if p u = true then some u else if p v = true then some v else none := by
  rcases hu : p u <;> rcases hv : p v <;> simp [List.filter, hu, hv]

lemma if_chain_congr {α : Type} (p : α → Bool) {u u' v v' : α} (hu : u = u') (hv : v = v') :
    (if p u = true then some u else if p v = true then some v else none) =
      (if p u' = true then some u' else if p v' = true then some v' else none) := by
  rw [hu, hv]

/-- `Sphere::intersection` in closed form: `None` on a negative discriminant,
else the first of the roots `(h - sqrt d) / a`, `(h + sqrt d) / a` that the
interval contains. -/
lemma Sphere.intersection_cases (sqrt : K → K) (sph : Sphere K) (ray : Ray K)
    (ti : Interval K) :
    Sphere.intersection sqrt sph ray ti =
      (if (ray.direction.dot (sph.center - ray.origin)) ^ 2 -
          ray.direction.dot ray.direction *
            ((sph.center - ray.origin).dot (sph.center - ray.origin) - sph.radius ^ 2) < 0
       then none
       else
         if ti.contains ((ray.direction.dot (sph.center - ray.origin) -
             sqrt ((ray.direction.dot (sph.center - ray.origin)) ^ 2 -
               ray.direction.dot ray.direction *
                 ((sph.center - ray.origin).dot (sph.center - ray.origin) - sph.radius ^ 2))) /
             ray.direction.dot ray.direction) = true
         then some ((ray.direction.dot (sph.center - ray.origin) -
             sqrt ((ray.direction.dot (sph.center - ray.origin)) ^ 2 -
               ray.direction.dot ray.direction *
                 ((sph.center - ray.origin).dot (sph.center - ray.origin) - sph.radius ^ 2))) /
             ray.direction.dot ray.direction)
         else
           if ti.contains ((ray.direction.dot (sph.center - ray.origin) +
               sqrt ((ray.direction.dot (sph.center - ray.origin)) ^ 2 -
                 ray.direction.dot ray.direction *
                   ((sph.center - ray.origin).dot (sph.center - ray.origin) - sph.radius ^ 2))) /
               ray.direction.dot ray.direction) = true
           then some ((ray.direction.dot (sph.center - ray.origin) +
               sqrt ((ray.direction.dot (sph.center - ray.origin)) ^ 2 -
                 ray.direction.dot ray.direction *
                   ((sph.center - ray.origin).dot (sph.center - ray.origin) - sph.radius ^ 2))) /
               ray.direction.dot ray.direction)
           else none) := by
  have base : Sphere.intersection sqrt sph ray ti =
      (if (ray.direction.dot (sph.center - ray.origin)) ^ 2 -
          ray.direction.dot ray.direction *
            ((sph.center - ray.origin).dot (sph.center - ray.origin) - sph.radius ^ 2) < 0
       then none
       else
         (List.filter (fun t => ti.contains t)
           [(ray.direction.dot (sph.center - ray.origin) +
               (-1) * sqrt ((ray.direction.dot (sph.center - ray.origin)) ^ 2 -
                 ray.direction.dot ray.direction *
                   ((sph.center - ray.origin).dot (sph.center - ray.origin) - sph.radius ^ 2))) /
               ray.direction.dot ray.direction,
            (ray.direction.dot (sph.center - ray.origin) +
               1 * sqrt ((ray.direction.dot (sph.center - ray.origin)) ^ 2 -
                 ray.direction.dot ray.direction *
                   ((sph.center - ray.origin).dot (sph.center - ray.origin) - sph.radius ^ 2))) /
               ray.direction.dot ray.direction]).head?) := rfl
  rw [base]
  by_cases hd : (ray.direction.dot (sph.center - ray.origin)) ^ 2 -
      ray.direction.dot ray.direction *
        ((sph.center - ray.origin).dot (sph.center - ray.origin) - sph.radius ^ 2) < 0
  · rw [if_pos hd, if_pos hd]
  · rw [if_neg hd, if_neg hd, filter_two_head]
    exact if_chain_congr _ (by ring) (by ring)

/-- Claim C2: with `oc = C - O`, `a = D.D`, `h = D.oc`, `c = oc.oc - r^2` and
`discriminant = h^2 - a*c`, `Sphere::intersection` returns `None` on a
negative discriminant, and otherwise the first root in the order
`(h - sqrt d)/a`, `(h + sqrt d)/a` that the interval contains under its own
boundary rule — which is the smaller root first whenever the ray direction
is nonzero. -/
theorem sphere_intersection_roots_spec (sph : Sphere ℝ) (ray : Ray ℝ) (ti : Interval ℝ)
    (oc : Vec ℝ) (a h c disc root_minus root_plus : ℝ)
    (hoc : oc = sph.center - ray.origin)
    (ha : a = ray.direction.dot ray.direction)
    (hh : h = ray.direction.dot oc)
    (hc : c = oc.dot oc - sph.radius ^ 2)
    (hdisc : disc = h ^ 2 - a * c)
    (hminus : root_minus = (h - Real.sqrt disc) / a)
    (hplus : root_plus = (h + Real.sqrt disc) / a) :
    (disc < 0 → Sphere.intersection Real.sqrt sph ray ti = none) ∧
    (0 ≤ disc →
      Sphere.intersection Real.sqrt sph ray ti =
        if ti.contains root_minus = true then some root_minus
        else if ti.contains root_plus = true then some root_plus
        else none) ∧
    (ray.direction ≠ Vec.zero → root_minus ≤ root_plus) := by
  subst hoc
  subst ha
  subst hh
  subst hc
  subst hdisc
  subst hminus
  subst hplus
  refine ⟨fun hneg => ?_, fun hnonneg => ?_, fun hdir => ?_⟩
  · rw [Sphere.intersection_cases, if_pos hneg]
  · rw [Sphere.intersection_cases, if_neg (not_lt.mpr hnonneg)]
  · have hapos : 0 < ray.direction.dot ray.direction := Vec.l2_norm_squared_pos hdir
    have hs := Real.sqrt_nonneg ((ray.direction.dot (sph.center - ray.origin)) ^ 2 -
      ray.direction.dot ray.direction *
        ((sph.center - ray.origin).dot (sph.center - ray.origin) - sph.radius ^ 2))
    exact (div_le_div_iff_of_pos_right hapos).mpr (by linarith)

/-- Witness for claim C2: the ray from the origin along (1,0,0) against the
sphere of radius 1 centered at (2,0,0), searched in (0, 10): discriminant 1,
roots 1 and 3, and the returned hit is the smaller in-range root 1. -/
theorem sphere_intersection_roots_spec_witness :
    (0 : ℝ) ≤ 1 ∧
    Sphere.intersection Real.sqrt ⟨Vec.new 2 0 0, 1⟩
      ⟨Vec.new 0 0 0, Vec.new 1 0 0⟩ (Interval.new 0 10 IntervalBounds.Open) = some 1 := by
  refine ⟨zero_le_one, ?_⟩
  have hoc : (Vec.new 2 0 0 : Vec ℝ) = Vec.new 2 0 0 - Vec.new 0 0 0 := by
    ext <;> norm_num [Vec.new]
  have key := (sphere_intersection_roots_spec ⟨Vec.new 2 0 0, 1⟩
    ⟨Vec.new 0 0 0, Vec.new 1 0 0⟩ (Interval.new 0 10 IntervalBounds.Open)
    (Vec.new 2 0 0) 1 2 3 1 1 3 hoc
    (by norm_num [Vec.dot, Vec.new]) (by norm_num [Vec.dot, Vec.new])
    (by norm_num [Vec.dot, Vec.new]) (by norm_num)
    (by norm_num [Real.sqrt_one]) (by norm_num [Real.sqrt_one])).2.1 zero_le_one
  rw [key]
  norm_num [Interval.contains, Interval.new]

/-- Claim C7: whenever `Sphere::intersection` returns `Some(t)`, the point
`ray.at(t)` lies exactly on the sphere in real arithmetic: its squared
distance from the center is the squared radius, and its distance is the
radius. -/
theorem sphere_intersection_round_trip (sph : Sphere ℝ) (ray : Ray ℝ) (ti : Interval ℝ)
    (t : ℝ) (hdir : ray.direction ≠ Vec.zero) (hrad : 0 < sph.radius)
    (hit : Sphere.intersection Real.sqrt sph ray ti = some t) :
    (ray.at t - sph.center).l2_norm_squared = sph.radius ^ 2 ∧
    Vec.l2_norm Real.sqrt (ray.at t - sph.center) = sph.radius := by
  have hapos : 0 < ray.direction.dot ray.direction := Vec.l2_norm_squared_pos hdir
  have hane : ray.direction.dot ray.direction ≠ 0 := ne_of_gt hapos
  rw [Sphere.intersection_cases] at hit
  by_cases hd : (ray.direction.dot (sph.center - ray.origin)) ^ 2 -
      ray.direction.dot ray.direction *
        ((sph.center - ray.origin).dot (sph.center - ray.origin) - sph.radius ^ 2) < 0
  · rw [if_pos hd] at hit
    exact absurd hit (by simp)
  rw [if_neg hd] at hit
  have hs : Real.sqrt ((ray.direction.dot (sph.center - ray.origin)) ^ 2 -
        ray.direction.dot ray.direction *
          ((sph.center - ray.origin).dot (sph.center - ray.origin) - sph.radius ^ 2)) ^ 2 =
      (ray.direction.dot (sph.center - ray.origin)) ^ 2 -
        ray.direction.dot ray.direction *
          ((sph.center - ray.origin).dot (sph.center - ray.origin) - sph.radius ^ 2) :=
    Real.sq_sqrt (not_lt.mp hd)
  have expand : (ray.at t - sph.center).l2_norm_squared =
      (ray.direction.dot ray.direction) * t ^ 2 -
        2 * (ray.direction.dot (sph.center - ray.origin)) * t +
        (sph.center - ray.origin).dot (sph.center - ray.origin) := by
    simp only [Ray.at, Vec.l2_norm_squared, Vec.dot, Vec.add_x, Vec.add_y, Vec.add_z,
      Vec.sub_x, Vec.sub_y, Vec.sub_z, Vec.smul_x, Vec.smul_y, Vec.smul_z]
    ring
  have hsq : (ray.at t - sph.center).l2_norm_squared = sph.radius ^ 2 := by
    split_ifs at hit with h1 h2
    · have ht : t = (ray.direction.dot (sph.center - ray.origin) -
          Real.sqrt ((ray.direction.dot (sph.center - ray.origin)) ^ 2 -
            ray.direction.dot ray.direction *
              ((sph.center - ray.origin).dot (sph.center - ray.origin) - sph.radius ^ 2))) /
          ray.direction.dot ray.direction := (Option.some.injEq _ _).mp hit.symm
      rw [expand, ht]
      field_simp
      linear_combination (ray.direction.dot ray.direction) ^ 2 * hs
    · have ht : t = (ray.direction.dot (sph.center - ray.origin) +
          Real.sqrt ((ray.direction.dot (sph.center - ray.origin)) ^ 2 -
            ray.direction.dot ray.direction *
              ((sph.center - ray.origin).dot (sph.center - ray.origin) - sph.radius ^ 2))) /
          ray.direction.dot ray.direction := (Option.some.injEq _ _).mp hit.symm
      rw [expand, ht]
      field_simp
      linear_combination (ray.direction.dot ray.direction) ^ 2 * hs
  refine ⟨hsq, ?_⟩
  rw [Vec.l2_norm, hsq, Real.sqrt_sq hrad.le]

/-- Witness for claim C7 at the concrete hit of the C2 scenario: the hit
time is 1 and the hit point (1,0,0) is at distance 1 from the center
(2,0,0). -/
theorem sphere_intersection_round_trip_witness :
    (Vec.new 1 0 0 : Vec ℝ) ≠ Vec.zero ∧ (0 : ℝ) < 1 ∧
    Sphere.intersection Real.sqrt ⟨Vec.new 2 0 0, 1⟩
      ⟨Vec.new 0 0 0, Vec.new 1 0 0⟩ (Interval.new 0 10 IntervalBounds.Open) = some 1 ∧
    ((⟨Vec.new 0 0 0, Vec.new 1 0 0⟩ : Ray ℝ).at 1 - Vec.new 2 0 0).l2_norm_squared
      = (1 : ℝ) ^ 2 := by
  have hdir : (Vec.new 1 0 0 : Vec ℝ) ≠ Vec.zero := by
    simp [Vec.new, Vec.zero]
  have hit : Sphere.intersection Real.sqrt ⟨Vec.new 2 0 0, 1⟩
      ⟨Vec.new 0 0 0, Vec.new 1 0 0⟩ (Interval.new 0 10 IntervalBounds.Open) = some 1 := by
    rw [Sphere.intersection_cases]
    norm_num [Vec.dot, Vec.new, Interval.contains, Interval.new, Real.sqrt_one]
  exact ⟨hdir, zero_lt_one, hit,
    (sphere_intersection_round_trip ⟨Vec.new 2 0 0, 1⟩ ⟨Vec.new 0 0 0, Vec.new 1 0 0⟩
      (Interval.new 0 10 IntervalBounds.Open) 1 hdir zero_lt_one hit).1⟩

end SphereIntersection

section Dielectric

lemma Vec.add_comm_eq (v w : Vec K) : v + w = w + v := by
  ext <;> simp only [Vec.add_x, Vec.add_y, Vec.add_z] <;> ring

lemma Vec.l2ns_smul_add (c : K) (n w : Vec K) :
    ((c • n) + w).l2_norm_squared =
      c ^ 2 * n.l2_norm_squared + 2 * c * n.dot w + w.l2_norm_squared := by
  simp only [Vec.l2_norm_squared, Vec.dot, Vec.add_x, Vec.add_y, Vec.add_z,
    Vec.smul_x, Vec.smul_y, Vec.smul_z]
  ring

/-- The Snell perpendicular component is orthogonal to a unit rebound
normal. -/
lemma dielectric_perp_orth (rel : K) (r n : Vec K) (hn : n.l2_norm_squared = 1) :
    n.dot ((1 / rel) • (r - (r.dot n) • n)) = 0 := by
  have expand : n.dot ((1 / rel) • (r - (r.dot n) • n)) =
      (1 / rel) * n.dot r * (1 - n.l2_norm_squared) := by
    simp only [Vec.dot, Vec.l2_norm_squared, Vec.sub_x, Vec.sub_y, Vec.sub_z,
      Vec.smul_x, Vec.smul_y, Vec.smul_z]
    ring
  rw [expand, hn]
  ring

/-- Claim C3: `Dielectric::random_reflection` always returns `Some` — it
never absorbs and never branches into total internal reflection or a Fresnel
choice — with white attenuation (1,1,1) and the Snell refraction direction:
the relative index is `refraction_index` when the probe reports entering and
`1/refraction_index` otherwise, the perpendicular component is
`(1/relative_index)·(incident − (incident·n)·n)`, the parallel component is
`−n·sqrt(1 − |perpendicular|²)`, and (for a unit rebound normal, when the
perpendicular component has squared norm at most 1) the returned direction
equals the renormalised sum of the two components — the renormalisation the
spec describes is the identity here, the sum being already of unit norm. -/
theorem dielectric_refraction_spec (refraction_index : ℝ)
    (ray_direction rebound_normal : Vec ℝ) (entering_surface : Unit → Bool)
    (relative_index : ℝ) (r refracted_perpendicular refracted_parallel : Vec ℝ)
    (hrel : relative_index =
      if entering_surface () = true then refraction_index else 1 / refraction_index)
    (hr : r = ray_direction.normalise Real.sqrt)
    (hperp : refracted_perpendicular =
      (1 / relative_index) • (r - (r.dot rebound_normal) • rebound_normal))
    (hpar : refracted_parallel =
      (-(Real.sqrt (1 - refracted_perpendicular.l2_norm_squared))) • rebound_normal)
    (hn : rebound_normal.l2_norm_squared = 1)
    (hsmall : refracted_perpendicular.l2_norm_squared ≤ 1) :
    Dielectric.random_reflection Real.sqrt refraction_index ray_direction rebound_normal
        entering_surface =
      some ⟨Vec.new 1 1 1, refracted_parallel + refracted_perpendicular⟩ ∧
    refracted_parallel + refracted_perpendicular =
      (refracted_perpendicular + refracted_parallel).normalise Real.sqrt := by
  have horth : rebound_normal.dot refracted_perpendicular = 0 := by
    rw [hperp]
    exact dielectric_perp_orth relative_index r rebound_normal hn
  have hq2 : Real.sqrt (1 - refracted_perpendicular.l2_norm_squared) ^ 2 =
      1 - refracted_perpendicular.l2_norm_squared :=
    Real.sq_sqrt (by linarith)
  have hsum : (refracted_parallel + refracted_perpendicular).l2_norm_squared = 1 := by
    rw [hpar, Vec.l2ns_smul_add, hn, horth]
    linear_combination hq2
  constructor
  · subst hpar
    subst hperp
    subst hr
    subst hrel
    rw [Dielectric.random_reflection]
    refine congrArg some (congrArg₂ _ rfl ?_)
    ext <;>
      simp only [Vec.add_x, Vec.add_y, Vec.add_z, Vec.smul_x, Vec.smul_y, Vec.smul_z,
        Vec.neg_x, Vec.neg_y, Vec.neg_z] <;>
      ring
  · rw [Vec.add_comm_eq refracted_perpendicular refracted_parallel]
    exact (Vec.normalise_of_l2ns_eq_one hsum).symm

/-- Witness for claim C3: the incident direction (0,-1,0) hitting a surface
with unit rebound normal (0,1,0) head on, entering, refraction index 2: the
perpendicular component vanishes and the refracted direction is (0,-1,0). -/
theorem dielectric_refraction_spec_witness :
    (Vec.new 0 1 0 : Vec ℝ).l2_norm_squared = 1 ∧
    (Vec.new 0 0 0 : Vec ℝ).l2_norm_squared ≤ 1 ∧
    Dielectric.random_reflection Real.sqrt 2 (Vec.new 0 (-1) 0) (Vec.new 0 1 0)
        (fun _ => true) =
      some ⟨Vec.new 1 1 1, Vec.new 0 (-1) 0 + Vec.new 0 0 0⟩ := by
  have hn : (Vec.new 0 1 0 : Vec ℝ).l2_norm_squared = 1 := by
    norm_num [Vec.l2_norm_squared, Vec.dot, Vec.new]
  have hr : (Vec.new 0 (-1) 0 : Vec ℝ) = Vec.normalise Real.sqrt (Vec.new 0 (-1) 0) :=
    (Vec.normalise_of_l2ns_eq_one
      (by norm_num [Vec.l2_norm_squared, Vec.dot, Vec.new])).symm
  have hdot : (Vec.new 0 (-1) 0 : Vec ℝ).dot (Vec.new 0 1 0) = -1 := by
    norm_num [Vec.dot, Vec.new]
  have hperp : (Vec.new 0 0 0 : Vec ℝ) =
      ((1 : ℝ) / 2) • (Vec.new 0 (-1) 0 -
        ((Vec.new 0 (-1) 0 : Vec ℝ).dot (Vec.new 0 1 0)) • Vec.new 0 1 0) := by
    rw [hdot]
    ext <;> norm_num [Vec.new]
  have hzero : (Vec.new 0 0 0 : Vec ℝ).l2_norm_squared = 0 := by
    norm_num [Vec.l2_norm_squared, Vec.dot, Vec.new]
  have hpar : (Vec.new 0 (-1) 0 : Vec ℝ) =
      (-(Real.sqrt (1 - (Vec.new 0 0 0 : Vec ℝ).l2_norm_squared))) • Vec.new 0 1 0 := by
    rw [hzero]
    ext <;> norm_num [Vec.new, Real.sqrt_one]
  refine ⟨hn, by rw [hzero]; norm_num, ?_⟩
  exact (dielectric_refraction_spec 2 (Vec.new 0 (-1) 0) (Vec.new 0 1 0) (fun _ => true)
    2 (Vec.new 0 (-1) 0) (Vec.new 0 0 0) (Vec.new 0 (-1) 0)
    (by norm_num) hr hperp hpar hn (by rw [hzero]; norm_num)).1

end Dielectric

section CameraSampling

/-- Claim C5: per pixel `(x, y)`, the render closure traces exactly
`antialiasing + 1` rays — one per jitter draw plus the direct one — and the
pixel colour is the arithmetic mean of their `ray_colour` values; the
direct ray passes through the exact pixel centre (the jitter offset of the
empty sample interval is zero, whatever the random draws), and every
jittered ray targets pixel coordinates offset from `(x, y)` by at most 1/2
on each axis (the offset is `-1/2 + draw` with the draw in `[0, 1)`). -/
theorem camera_pixel_sampling (sqrt : K → K) (f64_max : K) (cam : Camera K)
    (image_width image_height : ℕ) (viewport_width viewport_height focal_length : K)
    (antialiasing max_ray_bounces : ℕ) (world : List (CamSurface K)) (x y : ℕ)
    (direct_rx direct_ry : K) (draws : List (K × K))
    (hcam : cam = Camera.new image_width image_height viewport_width viewport_height
      focal_length antialiasing max_ray_bounces)
    (hlen : draws.length = antialiasing)
    (hdraws : ∀ d ∈ draws, 0 ≤ d.1 ∧ d.1 < 1 ∧ 0 ≤ d.2 ∧ d.2 < 1) :
    (((draws.map fun d =>
          cam.build_ray x y (Interval.new (-(1 / 2)) (1 / 2) IntervalBounds.Closed) d.1 d.2)
        ++ [cam.build_ray x y Interval.empty direct_rx direct_ry]).length
      = antialiasing + 1) ∧
    (Camera.vector_generator sqrt f64_max cam world x y direct_rx direct_ry draws =
      (Vec.sumList
        (((draws.map fun d =>
            cam.build_ray x y (Interval.new (-(1 / 2)) (1 / 2) IntervalBounds.Closed) d.1 d.2)
          ++ [cam.build_ray x y Interval.empty direct_rx direct_ry]).map
          fun ray => ray_colour sqrt f64_max world ray cam.max_ray_bounces)).div
        (((draws.length : K)) + 1)) ∧
    (cam.build_ray x y Interval.empty direct_rx direct_ry =
      Ray.from_two_points cam.eye_point
        (cam.pixel00 + (x : K) • cam.pixel_delta_u + (y : K) • cam.pixel_delta_v)) ∧
    (∀ d ∈ draws, ∃ ox oy : K,
      -(1 / 2) ≤ ox ∧ ox ≤ 1 / 2 ∧ -(1 / 2) ≤ oy ∧ oy ≤ 1 / 2 ∧
      cam.build_ray x y (Interval.new (-(1 / 2)) (1 / 2) IntervalBounds.Closed) d.1 d.2 =
        Ray.from_two_points cam.eye_point
          (cam.pixel00 + ((x : K) + ox) • cam.pixel_delta_u +
            ((y : K) + oy) • cam.pixel_delta_v)) := by
  have hanti : cam.antialiasing = antialiasing := by rw [hcam]; rfl
  refine ⟨?_, ?_, ?_, ?_⟩
  · simp [hlen]
  · rw [Camera.vector_generator, hanti, hlen]
  · rw [Camera.build_ray, Interval.empty, Interval.size]
    have hx : (x : K) + (0 : K) + ((0 : K) - 0) * direct_rx = (x : K) := by ring
    have hy : (y : K) + (0 : K) + ((0 : K) - 0) * direct_ry = (y : K) := by ring
    rw [hx, hy]
  · intro d hd
    obtain ⟨h1, h2, h3, h4⟩ := hdraws d hd
    refine ⟨-(1 / 2) + d.1, -(1 / 2) + d.2, by linarith, by linarith, by linarith,
      by linarith, ?_⟩
    rw [Camera.build_ray, Interval.new, Interval.size]
    have hx : (x : K) + (-(1 / 2)) + ((1 / 2 : K) - -(1 / 2)) * d.1 =
        (x : K) + (-(1 / 2) + d.1) := by ring
    have hy : (y : K) + (-(1 / 2)) + ((1 / 2 : K) - -(1 / 2)) * d.2 =
        (y : K) + (-(1 / 2) + d.2) := by ring
    rw [hx, hy]

/-- Witness for claim C5: a 4x2-pixel camera with one antialiasing sample and
bounce budget 0, over the empty scene at rationals (`sqrt` instantiated with
the identity, which `ray_colour` at budget 0 never calls), one jitter draw
(1/2, 1/2). -/
theorem camera_pixel_sampling_witness :
    ([((1 : ℚ) / 2, (1 : ℚ) / 2)].length = 1) ∧
    (∀ d ∈ [((1 : ℚ) / 2, (1 : ℚ) / 2)], 0 ≤ d.1 ∧ d.1 < 1 ∧ 0 ≤ d.2 ∧ d.2 < 1) ∧
    ((Camera.new 4 2 4 2 1 1 0 : Camera ℚ).build_ray 1 1 Interval.empty 0 0 =
      Ray.from_two_points (Camera.new 4 2 4 2 1 1 0 : Camera ℚ).eye_point
        ((Camera.new 4 2 4 2 1 1 0 : Camera ℚ).pixel00 +
          ((1 : ℕ) : ℚ) • (Camera.new 4 2 4 2 1 1 0 : Camera ℚ).pixel_delta_u +
          ((1 : ℕ) : ℚ) • (Camera.new 4 2 4 2 1 1 0 : Camera ℚ).pixel_delta_v)) := by
  have key := camera_pixel_sampling (fun q => q) (1000000 : ℚ)
    (Camera.new 4 2 4 2 1 1 0) 4 2 4 2 1 1 0 [] 1 1 0 0
    [((1 : ℚ) / 2, (1 : ℚ) / 2)] rfl rfl (by norm_num)
  exact ⟨rfl, by norm_num, key.2.2.1⟩

end CameraSampling

section SurfaceSetScan

/-- The defining property of `List.min?` over a linear order. -/
lemma min?_spec_some {l : List K} {m : K} (h : l.min? = some m) :
    m ∈ l ∧ ∀ u ∈ l, m ≤ u := by
  have anti : Std.Antisymm ((· : K) ≤ ·) := ⟨fun h1 h2 => le_antisymm h1 h2⟩
  exact (List.min?_eq_some_iff le_refl min_choice (fun _ _ _ => le_min_iff)).mp h

/-- A missed abstract surface has no hit time inside the window. -/
lemma ListSurface.intersection_eq_none {hits : List K} {ray : Ray K} {w : Interval K}
    (h : ListSurface.intersection hits ray w = none) :
    ∀ u ∈ hits, w.contains u = false := by
  intro u hu
  rw [ListSurface.intersection, List.min?_eq_none_iff] at h
  simpa using List.filter_eq_nil_iff.mp h u hu

/-- A hit of an abstract surface is its least hit time inside the window. -/
lemma ListSurface.intersection_eq_some {hits : List K} {ray : Ray K} {w : Interval K}
    {m : K} (h : ListSurface.intersection hits ray w = some m) :
    m ∈ hits ∧ w.contains m = true ∧ ∀ u ∈ hits, w.contains u = true → m ≤ u := by
  rw [ListSurface.intersection] at h
  obtain ⟨hmem, hmin⟩ := min?_spec_some h
  obtain ⟨hmem2, hcon⟩ := List.mem_filter.mp hmem
  exact ⟨hmem2, hcon, fun u hu hcu => hmin u (List.mem_filter.mpr ⟨hu, hcu⟩)⟩

/-- Membership in the shrunk scan window `[i0.min, t]` under the subsequent
bounds: exactly the members of the original interval that are at most `t`.
The follow-up window is closed on the right (an exact tie at `t` stays
detectable) and keeps the original convention on the left. -/
lemma contains_window_iff (i0 : Interval K) {t : K} (ht : i0.contains t = true) (u : K) :
    (Interval.new i0.min t (subsequentBounds i0.bounds)).contains u = true ↔
      i0.contains u = true ∧ u ≤ t := by
  rcases i0 with ⟨mn, mx, b⟩
  cases b <;>
    simp only [Interval.contains, Interval.new, subsequentBounds, decide_eq_true_eq] at ht ⊢ <;>
    exact ⟨fun h => ⟨⟨h.1, by linarith [ht.2, h.2]⟩, h.2⟩, fun h => ⟨h.1.1, h.2⟩⟩

/-- The loop invariant of the fold inside `SurfaceSet::intersection`, over
the prefix `pre` of member surfaces already scanned: before any hit the
window is still the whole search interval and no scanned member hits inside
it; after a hit, the window runs from the original lower bound to the
running minimum `o.t` under the subsequent (right-closed) convention, `o.t`
is the least hit time over the scanned prefix within the original interval,
and the recorded tie set is, in insertion order, exactly the scanned members
achieving `o.t`. -/
def ScanInv (i0 : Interval K) (pre : List (List K))
    (acc : Interval K × Option (SurfaceSetIntersection (List K) K)) : Prop :=
  (acc.2 = none ∧ acc.1 = i0 ∧ ∀ s ∈ pre, ∀ u ∈ s, i0.contains u = false) ∨
  (∃ o, acc.2 = some o ∧
    acc.1 = Interval.new i0.min o.t (subsequentBounds i0.bounds) ∧
    (∃ s ∈ pre, o.t ∈ s) ∧
    i0.contains o.t = true ∧
    (∀ s ∈ pre, ∀ u ∈ s, i0.contains u = true → o.t ≤ u) ∧
    o.surfaces = pre.filter (fun s => decide (o.t ∈ s)))

/-- One scan step preserves the invariant. -/
lemma scanStep_inv (i0 : Interval K) (ray : Ray K) (pre : List (List K))
    (w : Interval K) (out : Option (SurfaceSetIntersection (List K) K)) (s : List K)
    (hinv : ScanInv i0 pre (w, out)) :
    ScanInv i0 (pre ++ [s])
      (scanStep ListSurface.intersection ray (subsequentBounds i0.bounds) (w, out) s) := by
  rcases hm : ListSurface.intersection s ray w with _ | m
  · -- the new member has no hit inside the window: the accumulator is kept
    have hnone := ListSurface.intersection_eq_none hm
    have hstep : scanStep ListSurface.intersection ray (subsequentBounds i0.bounds)
        (w, out) s = (w, out) := by
      simp [scanStep, hm]
    rw [hstep]
    rcases hinv with ⟨hout, hw, hpre⟩ | ⟨o, hout, hw, hex, hcon, hmin, hsurf⟩
    · have hout2 : out = none := hout
      have hw2 : w = i0 := hw
      subst hout2
      subst hw2
      refine Or.inl ⟨rfl, rfl, ?_⟩
      intro s' hs' u hu
      rcases List.mem_append.mp hs' with h | h
      · exact hpre s' h u hu
      · have hss : s' = s := by simpa using h
        subst hss
        exact hnone u hu
    · have hout2 : out = some o := hout
      have hw2 : w = Interval.new i0.min o.t (subsequentBounds i0.bounds) := hw
      have hnotin : o.t ∉ s := by
        intro hmem
        have hwin : w.contains o.t = true := by
          rw [hw2]
          exact (contains_window_iff i0 hcon o.t).mpr ⟨hcon, le_refl o.t⟩
        rw [hnone o.t hmem] at hwin
        exact Bool.false_ne_true hwin
      refine Or.inr ⟨o, hout2, hw2, ?_, hcon, ?_, ?_⟩
      · obtain ⟨s', hs', hmm⟩ := hex
        exact ⟨s', List.mem_append_left _ hs', hmm⟩
      · intro s' hs' u hu hcu
        rcases List.mem_append.mp hs' with h | h
        · exact hmin s' h u hu hcu
        · have hss : s' = s := by simpa using h
          subst hss
          rcases le_or_lt o.t u with hle | hlt
          · exact hle
          · exfalso
            have hwin : w.contains u = true := by
              rw [hw2]
              exact (contains_window_iff i0 hcon u).mpr ⟨hcu, hlt.le⟩
            rw [hnone u hu] at hwin
            exact Bool.false_ne_true hwin
      · rw [List.filter_append, ← hsurf]
        have hfs : List.filter (fun s2 => decide (o.t ∈ s2)) [s] = [] := by
          simp [hnotin]
        rw [hfs, List.append_nil]
  · -- the new member hits at its least in-window time m
    obtain ⟨hmem, hwcon, hminw⟩ := ListSurface.intersection_eq_some hm
    rcases hinv with ⟨hout, hw, hpre⟩ | ⟨o, hout, hw, hex, hcon, hmin, hsurf⟩
    · -- first hit of the scan: record the singleton tie set
      have hout2 : out = none := hout
      have hw2 : w = i0 := hw
      subst hout2
      subst hw2
      have hstep : scanStep ListSurface.intersection ray (subsequentBounds w.bounds)
          (w, none) s = (Interval.new w.min m (subsequentBounds w.bounds),
            some ⟨m, [s]⟩) := by
        simp [scanStep, hm]
      rw [hstep]
      refine Or.inr ⟨⟨m, [s]⟩, rfl, rfl, ⟨s, List.mem_append_right _ (by simp), hmem⟩,
        hwcon, ?_, ?_⟩
      · intro s' hs' u hu hcu
        rcases List.mem_append.mp hs' with h | h
        · rw [hpre s' h u hu] at hcu
          exact absurd hcu (by simp)
        · have hss : s' = s := by simpa using h
          subst hss
          exact hminw u hu hcu
      · have hfpre : pre.filter (fun s2 => decide (m ∈ s2)) = [] := by
          refine List.filter_eq_nil_iff.mpr ?_
          intro s' hs'
          simp only [decide_eq_true_eq]
          intro hmem2
          rw [hpre s' hs' m hmem2] at hwcon
          exact Bool.false_ne_true hwcon
        rw [List.filter_append, hfpre, List.nil_append]
        simp [hmem]
    · have hout2 : out = some o := hout
      have hw2 : w = Interval.new i0.min o.t (subsequentBounds i0.bounds) := hw
      subst hout2
      have hwmax : w.max = o.t := by rw [hw2]; rfl
      by_cases hmax : m = w.max
      · -- exact tie with the running minimum: append to the tie set
        have hmo : m = o.t := by rw [hmax, hwmax]
        have hstep : scanStep ListSurface.intersection ray (subsequentBounds i0.bounds)
            (w, some o) s = (Interval.new w.min m (subsequentBounds i0.bounds),
              some ⟨o.t, o.surfaces ++ [s]⟩) := by
          simp [scanStep, hm, hmax]
        rw [hstep]
        refine Or.inr ⟨⟨o.t, o.surfaces ++ [s]⟩, rfl, ?_, ?_, hcon, ?_, ?_⟩
        · rw [hw2, hmo]
          rfl
        · obtain ⟨s', hs', hmm⟩ := hex
          exact ⟨s', List.mem_append_left _ hs', hmm⟩
        · intro s' hs' u hu hcu
          rcases List.mem_append.mp hs' with h | h
          · exact hmin s' h u hu hcu
          · have hss : s' = s := by simpa using h
            subst hss
            rcases le_or_lt u o.t with hle | hlt
            · have hwin : w.contains u = true := by
                rw [hw2]
                exact (contains_window_iff i0 hcon u).mpr ⟨hcu, hle⟩
              have hmu := hminw u hu hwin
              rw [hmo] at hmu
              exact hmu
            · exact hlt.le
        · rw [List.filter_append, ← hsurf]
          have hfs : List.filter (fun s2 => decide (o.t ∈ s2)) [s] = [s] := by
            simp [hmo ▸ hmem]
          rw [hfs]
      · -- a strictly nearer hit: replace the tie set with the singleton
        have hstep : scanStep ListSurface.intersection ray (subsequentBounds i0.bounds)
            (w, some o) s = (Interval.new w.min m (subsequentBounds i0.bounds),
              some ⟨m, [s]⟩) := by
          simp [scanStep, hm, hmax]
        rw [hstep]
        have hwin := hwcon
        rw [hw2] at hwin
        obtain ⟨hi0m, hmle⟩ := (contains_window_iff i0 hcon m).mp hwin
        have hmlt : m < o.t := lt_of_le_of_ne hmle (by rw [← hwmax]; exact hmax)
        refine Or.inr ⟨⟨m, [s]⟩, rfl, ?_, ⟨s, List.mem_append_right _ (by simp), hmem⟩,
          hi0m, ?_, ?_⟩
        · rw [hw2]
          rfl
        · intro s' hs' u hu hcu
          rcases List.mem_append.mp hs' with h | h
          · have hou := hmin s' h u hu hcu
            linarith
          · have hss : s' = s := by simpa using h
            subst hss
            rcases le_or_lt u o.t with hle | hlt
            · have hwinu : w.contains u = true := by
                rw [hw2]
                exact (contains_window_iff i0 hcon u).mpr ⟨hcu, hle⟩
              exact hminw u hu hwinu
            · linarith
        · have hfpre : pre.filter (fun s2 => decide (m ∈ s2)) = [] := by
            refine List.filter_eq_nil_iff.mpr ?_
            intro s' hs'
            simp only [decide_eq_true_eq]
            intro hmem2
            have hou := hmin s' hs' m hmem2 hi0m
            linarith
          rw [List.filter_append, hfpre, List.nil_append]
          simp [hmem]

/-- The fold of `SurfaceSet::intersection` keeps the scan invariant. -/
lemma scan_fold_inv (i0 : Interval K) (ray : Ray K) (ss : List (List K)) :
    ∀ (w : Interval K) (out : Option (SurfaceSetIntersection (List K) K))
      (pre : List (List K)),
      ScanInv i0 pre (w, out) →
      ScanInv i0 (pre ++ ss)
        (ss.foldl (scanStep ListSurface.intersection ray (subsequentBounds i0.bounds))
          (w, out)) := by
  induction ss with
  | nil =>
    intro w out pre hinv
    simpa using hinv
  | cons s rest ih =>
    intro w out pre hinv
    rw [List.foldl_cons]
    have hstep := scanStep_inv i0 ray pre w out s hinv
    rcases hsp : scanStep ListSurface.intersection ray (subsequentBounds i0.bounds)
      (w, out) s with ⟨w2, out2⟩
    rw [hsp] at hstep
    have hrec := ih w2 out2 (pre ++ [s]) hstep
    rw [List.append_assoc] at hrec
    simpa using hrec

/-- Claim C1: whenever `SurfaceSet::intersection` returns a result, over
member surfaces modelled by their hit-time lists for the traced ray (each
returning its least hit inside the probed window, as the `Surface` trait
documents), the reported `t` lies in the search interval and is a hit of
some member, no member has a strictly smaller hit inside the interval, and
the reported tie set is exactly the list of members achieving `t`, in
insertion order: during the scan a candidate at the running minimum is
appended to the tie set, while a strictly smaller one replaces it with a
singleton. -/
theorem surface_set_intersection_spec (ray : Ray K) (surfaces : List (List K))
    (time_interval : Interval K) (res : SurfaceSetIntersection (List K) K)
    (hres : SurfaceSet.intersection ListSurface.intersection surfaces ray time_interval
      = some res) :
    (∃ s ∈ surfaces, res.t ∈ s) ∧
    time_interval.contains res.t = true ∧
    (∀ s ∈ surfaces, ∀ u ∈ s, time_interval.contains u = true → res.t ≤ u) ∧
    res.surfaces = surfaces.filter (fun s => decide (res.t ∈ s)) := by
  have hbase : ScanInv time_interval [] (time_interval, none) :=
    Or.inl ⟨rfl, rfl, by simp⟩
  have hfold := scan_fold_inv time_interval ray surfaces time_interval none [] hbase
  rw [List.nil_append] at hfold
  rw [SurfaceSet.intersection] at hres
  unfold ScanInv at hfold
  rcases hfold with ⟨hout, -, -⟩ | ⟨o, hout, -, hex, hcon, hmin, hsurf⟩
  · rw [hout] at hres
    exact absurd hres (by simp)
  · rw [hout] at hres
    have ho : o = res := by simpa using hres
    subst ho
    exact ⟨hex, hcon, hmin, hsurf⟩

/-- Witness for claim C1 over the rationals: three members hitting at times
5, 3 and 3 inside (0, 10): the scan reports t = 3 with the tie set holding
exactly the second and third members, in insertion order (the first hit
replaces, the 3 replaces the 5, the second 3 is appended as a tie). -/
theorem surface_set_intersection_spec_witness :
    (SurfaceSet.intersection ListSurface.intersection ([[5], [3], [3]] : List (List ℚ))
        ⟨Vec.zero, Vec.zero⟩ (Interval.new 0 10 IntervalBounds.Open) =
      some ⟨3, [[3], [3]]⟩) ∧
    (Interval.new (0 : ℚ) 10 IntervalBounds.Open).contains 3 = true ∧
    (∀ s ∈ ([[5], [3], [3]] : List (List ℚ)), ∀ u ∈ s,
      (Interval.new (0 : ℚ) 10 IntervalBounds.Open).contains u = true → 3 ≤ u) ∧
    ([[3], [3]] : List (List ℚ)) =
      ([[5], [3], [3]] : List (List ℚ)).filter (fun s => decide ((3 : ℚ) ∈ s)) := by
  have hres : SurfaceSet.intersection ListSurface.intersection
      ([[5], [3], [3]] : List (List ℚ)) ⟨Vec.zero, Vec.zero⟩
      (Interval.new 0 10 IntervalBounds.Open) = some ⟨3, [[3], [3]]⟩ := by decide
  have hmain := surface_set_intersection_spec ⟨Vec.zero, Vec.zero⟩
    ([[5], [3], [3]] : List (List ℚ)) (Interval.new 0 10 IntervalBounds.Open)
    ⟨3, [[3], [3]]⟩ hres
  exact ⟨hres, hmain.2.1, hmain.2.2.1, hmain.2.2.2⟩

end SurfaceSetScan

end RayTracing
